/-
Verification development for the elvish `edit` package: a shallow embedding
of the terminal key decoder (src/edit/reader.go) and the screen writer
(src/edit/writer.go), with theorems settling the frozen claims about them.

Go runes are embedded as `Int` (Go's rune is int32; special keys live in a
reserved range modelled as negative values). Go maps become total functions
into `Option`. The timed byte source is embedded as a list of read events
(a decoded rune, a timeout, or an I/O error); the reader's mutable
`Timeout` field is threaded explicitly and the `defer` that restores it is
the final field of the ESC branch's result.
-/
import Mathlib

namespace Elvish

/-! ## Keys and modifiers (modelled from the spec)

Modelled from the spec: the `Key` type, modifier set and the named special
keys are declared in a source file of this repository that is not under
src/ (only reader.go uses them). A key event is a code point plus a
modifier set drawn from Ctrl, Alt, Shift; special keys occupy a reserved
range, embedded here as distinct negative values; `ZeroKey` is the
distinguished zero value used as the error sentinel. -/

structure Mod where
  shift : Bool
  alt : Bool
  ctrl : Bool
deriving DecidableEq, Repr

def noMod : Mod := ⟨false, false, false⟩

def Shift : Mod := ⟨true, false, false⟩

def Alt : Mod := ⟨false, true, false⟩

def Ctrl : Mod := ⟨false, false, true⟩

/-- Pointwise union of two modifier sets; embeds Go's bitmask `|`. -/
def Mod.or (a b : Mod) : Mod := ⟨a.shift || b.shift, a.alt || b.alt, a.ctrl || b.ctrl⟩

structure Key where
  r : Int
  mod : Mod
deriving DecidableEq, Repr

def ZeroKey : Key := ⟨0, noMod⟩

def F1 : Int := -1
def F2 : Int := -2
def F3 : Int := -3
def F4 : Int := -4
def F5 : Int := -5
def F6 : Int := -6
def F7 : Int := -7
def F8 : Int := -8
def F9 : Int := -9
def F10 : Int := -10
def F11 : Int := -11
def F12 : Int := -12
def Up : Int := -13
def Down : Int := -14
def Right : Int := -15
def Left : Int := -16
def Home : Int := -17
def End : Int := -18
def Insert : Int := -19
def Delete : Int := -20
def PageUp : Int := -21
def PageDown : Int := -22
def Backspace : Int := -23

/-! ## The timed byte source and read errors -/

/-- One event delivered by the timed byte source: a decoded rune, the
`Timeout` sentinel, or an I/O (or UTF-8 decode) error. -/
inductive REv where
  | rn (r : Int)
  | tout
  | ioe
deriving DecidableEq, Repr

/-- Errors readKey can return: the source's `async.Timeout` sentinel, an
I/O error from the underlying reader, or reader.go's `BadEscSeq`. -/
inductive RdErr where
  | timeout
  | ioError
  | badEscSeq
deriving DecidableEq, Repr

/-! ## reader.go: tables -/

/-- reader.go `g3Seq`: G3 style function key sequences, `ESC O` followed by
exactly one character. -/
def g3Seq (r : Int) : Option Int :=
  if r = 80 then some F1        -- 'P'
  else if r = 81 then some F2   -- 'Q'
  else if r = 82 then some F3   -- 'R'
  else if r = 83 then some F4   -- 'S'
  else if r = 72 then some Home -- 'H'
  else if r = 70 then some End  -- 'F'
  else none

/-- reader.go `keyByLast`. -/
def keyByLast (r : Int) : Option Int :=
  if r = 65 then some Up         -- 'A'
  else if r = 66 then some Down  -- 'B'
  else if r = 67 then some Right -- 'C'
  else if r = 68 then some Left  -- 'D'
  else if r = 72 then some Home  -- 'H'
  else if r = 70 then some End   -- 'F'
  else none

/-- reader.go `keyByNum0` (used when the final byte is `~`). -/
def keyByNum0 (n : Int) : Option Int :=
  if n = 1 then some Home
  else if n = 2 then some Insert
  else if n = 3 then some Delete
  else if n = 4 then some End
  else if n = 5 then some PageUp
  else if n = 6 then some PageDown
  else if n = 11 then some F1
  else if n = 12 then some F2
  else if n = 13 then some F3
  else if n = 14 then some F4
  else if n = 15 then some F5
  else if n = 17 then some F6
  else if n = 18 then some F7
  else if n = 19 then some F8
  else if n = 20 then some F9
  else if n = 21 then some F10
  else if n = 23 then some F11
  else if n = 24 then some F12
  else none

/-- reader.go `keyByNum2` (used when the final byte is `~` and
`nums[0] == 27`). Entry 63 maps to 59 exactly as the Go map literal
`63: ';'` does. -/
def keyByNum2 (n : Int) : Option Int :=
  if n = 9 then some 9           -- tab
  else if n = 13 then some 13    -- carriage return
  else if n = 33 then some 33    -- '!'
  else if n = 35 then some 35    -- '#'
  else if n = 39 then some 39    -- single quote
  else if n = 40 then some 40    -- '('
  else if n = 41 then some 41    -- ')'
  else if n = 43 then some 43    -- '+'
  else if n = 44 then some 44    -- ','
  else if n = 45 then some 45    -- '-'
  else if n = 46 then some 46    -- '.'
  else if n = 48 then some 48    -- '0'
  else if n = 49 then some 49    -- '1'
  else if n = 50 then some 50    -- '2'
  else if n = 51 then some 51    -- '3'
  else if n = 52 then some 52    -- '4'
  else if n = 53 then some 53    -- '5'
  else if n = 54 then some 54    -- '6'
  else if n = 55 then some 55    -- '7'
  else if n = 56 then some 56    -- '8'
  else if n = 57 then some 57    -- '9'
  else if n = 58 then some 58    -- ':'
  else if n = 59 then some 59    -- ';'
  else if n = 60 then some 60    -- '<'
  else if n = 61 then some 61    -- '='
  else if n = 62 then some 62    -- '>'
  else if n = 63 then some 59    -- '?' mapped to ';' by the Go map literal
  else none

/-! ## reader.go: parseCSI and xtermModify -/

/-- reader.go `xtermModify`. -/
def xtermModify (k : Key) (mod : Int) : Key × Option RdErr :=
  if mod = 0 then (k, none)
  else if mod = 2 then ({ k with mod := k.mod.or Shift }, none)
  else if mod = 3 then ({ k with mod := k.mod.or Alt }, none)
  else if mod = 4 then ({ k with mod := k.mod.or (Shift.or Alt) }, none)
  else if mod = 5 then ({ k with mod := k.mod.or Ctrl }, none)
  else if mod = 6 then ({ k with mod := k.mod.or (Shift.or Ctrl) }, none)
  else if mod = 7 then ({ k with mod := k.mod.or (Alt.or Ctrl) }, none)
  else if mod = 8 then ({ k with mod := k.mod.or ((Shift.or Alt).or Ctrl) }, none)
  else (ZeroKey, some RdErr.badEscSeq)

/-- reader.go `parseCSI`. The length guard at the top rejects every
parameter list of length other than 0 or 2, exactly as the source does;
the branches for one and for three parameters below it are kept as in the
source even though that guard makes them unreachable. -/
def parseCSI (nums : List Int) (last : Int) : Key × Option RdErr :=
  if nums.length ≠ 0 ∧ nums.length ≠ 2 then (ZeroKey, some RdErr.badEscSeq)
  else
    match keyByLast last with
    | some r =>
      if nums.length = 0 then (⟨r, noMod⟩, none)
      else if nums.length ≠ 2 ∨ nums.headD 0 ≠ 1 then (ZeroKey, some RdErr.badEscSeq)
      else xtermModify ⟨r, noMod⟩ ((nums.drop 1).headD 0)
    | none =>
      if last = 126 then          -- '~'
        if nums.length = 1 ∨ nums.length = 2 then
          match keyByNum0 (nums.headD 0) with
          | some r =>
            if nums.length = 2 then xtermModify ⟨r, noMod⟩ ((nums.drop 1).headD 0)
            else (⟨r, noMod⟩, none)
          | none => (ZeroKey, some RdErr.badEscSeq)
        else if nums.length = 3 ∧ nums.headD 0 = 27 then
          match keyByNum2 ((nums.drop 2).headD 0) with
          | some r => xtermModify ⟨r, noMod⟩ ((nums.drop 1).headD 0)
          | none => (ZeroKey, some RdErr.badEscSeq)
        else (ZeroKey, some RdErr.badEscSeq)
      else (ZeroKey, some RdErr.badEscSeq)

/-! ## reader.go: readKey -/

/-- Add one decimal digit to the last accumulated parameter; embeds
`nums[cur] = nums[cur]*10 + int(r - '0')`. The empty case is unreachable:
the caller pushes a 0 before the first digit. -/
def bumpLast : List Int → Int → List Int
  | [], _ => []
  | [n], d => [n * 10 + d]
  | n :: m :: t, d => n :: bumpLast (m :: t) d

/-- The parameter-reading loop of readKey's CSI branch (reader.go lines
70 to 95). A timeout event yields `Alt-[`; a read failure propagates; the
first rune that is neither a digit nor a semicolon ends the loop and is
handed to `parseCSI` as the final byte. (The in-loop assignment that turns
the timeout off has no further observable effect here because the deferred
restore overwrites the field on return.) -/
def csiLoop (evs : List REv) (nums : List Int) : Key × Option RdErr :=
  match evs with
  | [] => (ZeroKey, some RdErr.ioError)
  | REv.tout :: _ => (⟨91, Alt⟩, none)          -- '[' with Alt
  | REv.ioe :: _ => (ZeroKey, some RdErr.ioError)
  | REv.rn r :: rest =>
    if r ≠ 59 ∧ (r < 48 ∨ r > 57) then parseCSI nums r
    else
      let nums1 := if nums.isEmpty then [0] else nums
      let nums2 := if r = 59 then nums1 ++ [0] else bumpLast nums1 (r - 48)
      csiLoop rest nums2

/-- The result of one readKey call: the key, the error (nil or not), and
the value of the timed source's `Timeout` field after the call returns. -/
structure RdResult where
  key : Key
  err : Option RdErr
  timeoutAfter : Int
deriving DecidableEq, Repr

/-- The body of readKey's ESC case (reader.go lines 56 to 111), minus the
timeout bookkeeping: `r` is the rune the outer read produced (always ESC
here) and `rest` is the remaining event stream. In the final default
branch the source returns `Key{r, Alt}` where `r` is still that first
rune, because `r` is only reassigned inside the CSI case; this is kept
as is. -/
def escBranch (r : Int) (rest : List REv) : Key × Option RdErr :=
  match rest with
  | [] => (ZeroKey, some RdErr.ioError)
  | REv.tout :: _ => (⟨91, Ctrl⟩, none)       -- bare ESC becomes Ctrl-[
  | REv.ioe :: _ => (ZeroKey, some RdErr.ioError)
  | REv.rn r2 :: rest2 =>
    if r2 = 91 then csiLoop rest2 []          -- '['
    else if r2 = 79 then                      -- 'O'
      match rest2 with
      | [] => (ZeroKey, some RdErr.ioError)
      | REv.tout :: _ => (⟨r2, Alt⟩, none)
      | REv.ioe :: _ => (ZeroKey, some RdErr.ioError)
      | REv.rn r3 :: _ =>
        match g3Seq r3 with
        | some g => (⟨g, noMod⟩, none)
        | none => (ZeroKey, some RdErr.badEscSeq)
    else (⟨r, Alt⟩, none)

/-- reader.go `readKey`, over an event stream and the current value `t0`
of the timed source's `Timeout` field. The ESC case sets the field to
`EscTimeout` and registers a deferred restore to -1; the restore is
modelled by the `-1` in the final position of every ESC-branch result.
Go's early `return` on a failed first read returns the named result `k`
still at its zero value, i.e. `ZeroKey`. -/
def readKey (evs : List REv) (t0 : Int) : RdResult :=
  match evs with
  | [] => ⟨ZeroKey, some RdErr.ioError, t0⟩
  | REv.tout :: _ => ⟨ZeroKey, some RdErr.timeout, t0⟩
  | REv.ioe :: _ => ⟨ZeroKey, some RdErr.ioError, t0⟩
  | REv.rn r :: rest =>
    if r = 0 then ⟨⟨96, Ctrl⟩, none, t0⟩          -- '`'
    else if r = 29 then ⟨⟨54, Ctrl⟩, none, t0⟩    -- '6'
    else if r = 31 then ⟨⟨47, Ctrl⟩, none, t0⟩    -- '/'
    else if r = 127 then ⟨⟨Backspace, noMod⟩, none, t0⟩
    else if r = 27 then ⟨(escBranch r rest).1, (escBranch r rest).2, -1⟩
    else if 1 ≤ r ∧ r ≤ 29 then ⟨⟨r + 64, Ctrl⟩, none, t0⟩
    else ⟨⟨r, noMod⟩, none, t0⟩

/-! ## Width oracle (modelled from the spec) -/

/-- Modelled from the Go standard library predicate `unicode.IsPrint` as
the spec uses it: control code points (C0, DEL and C1) are not printable
and are dropped by `write`; other code points are treated as printable. -/
def isPrint (r : Char) : Bool :=
  decide (32 ≤ r.toNat ∧ (r.toNat < 127 ∨ 160 ≤ r.toNat))

/-- Modelled from the spec: combining and zero-width marks (width 0). The
width oracle's source file is not under src/. -/
def isCombining (r : Char) : Bool :=
  decide ((0x300 ≤ r.toNat ∧ r.toNat ≤ 0x36F) ∨ (0x1AB0 ≤ r.toNat ∧ r.toNat ≤ 0x1AFF) ∨
    (0x1DC0 ≤ r.toNat ∧ r.toNat ≤ 0x1DFF) ∨ (0x20D0 ≤ r.toNat ∧ r.toNat ≤ 0x20FF) ∨
    (0xFE20 ≤ r.toNat ∧ r.toNat ≤ 0xFE2F))

/-- Modelled from the spec: East-Asian Wide and Fullwidth code points
(width 2), covered by the standard wide blocks. -/
def isWide (r : Char) : Bool :=
  decide ((0x1100 ≤ r.toNat ∧ r.toNat ≤ 0x115F) ∨ (0x2E80 ≤ r.toNat ∧ r.toNat ≤ 0xA4CF) ∨
    (0xAC00 ≤ r.toNat ∧ r.toNat ≤ 0xD7A3) ∨ (0xF900 ≤ r.toNat ∧ r.toNat ≤ 0xFAFF) ∨
    (0xFE30 ≤ r.toNat ∧ r.toNat ≤ 0xFE4F) ∨ (0xFF00 ≤ r.toNat ∧ r.toNat ≤ 0xFF60) ∨
    (0xFFE0 ≤ r.toNat ∧ r.toNat ≤ 0xFFE6) ∨ (0x20000 ≤ r.toNat ∧ r.toNat ≤ 0x3FFFD))

/-- Modelled from the spec: the width oracle returns 0 for combining and
zero-width marks, 2 for East-Asian Wide and Fullwidth code points, and 1
otherwise. -/
def wcwidth (r : Char) : Nat :=
  if isCombining r then 0 else if isWide r then 2 else 1

/-- Modelled from the spec: summed display width of a string. -/
def wcwidths (s : String) : Int :=
  ((s.toList.map wcwidth).sum : Nat)

/-! ## writer.go: cells and the cell buffer -/

/-- writer.go `cell`: an indivisible unit on the screen (code point,
display width, opaque SGR attribute string). -/
structure cell where
  rn : Char
  width : Nat
  attr : String
deriving DecidableEq, Repr

/-- writer.go `pos`: a position within a buffer. -/
structure pos where
  line : Int
  col : Int
deriving DecidableEq, Repr

/-- writer.go `buffer`: a reflection of a continuous range of terminal
lines. -/
structure buffer where
  width : Int
  col : Int
  indent : Int
  cells : List (List cell)
  dot : pos
deriving DecidableEq, Repr

/-- writer.go `newBuffer`: one empty line, zero column and indent. -/
def newBuffer (width : Int) : buffer :=
  ⟨width, 0, 0, [[]], ⟨0, 0⟩⟩

/-- Append a cell to the last line of a line list; embeds the assignment
`b.cells[n-1] = append(b.cells[n-1], c)`. The source indexes `n-1` with
`n = len(b.cells)` and would panic on an empty list; every reachable
buffer has at least one line, so the empty case here is inert. -/
def updateLast : List (List cell) → cell → List (List cell)
  | [], _ => []
  | [ln], c => [ln ++ [c]]
  | ln :: l1 :: ls, c => ln :: updateLast (l1 :: ls) c

/-- writer.go `buffer.appendCell`. -/
def buffer.appendCell (b : buffer) (c : cell) : buffer :=
  { b with cells := updateLast b.cells c, col := b.col + (c.width : Int) }

/-- writer.go `buffer.appendLine`. -/
def buffer.appendLine (b : buffer) : buffer :=
  { b with cells := b.cells ++ [[]], col := 0 }

/-- writer.go `buffer.newline`: append a line, then append `indent` space
cells (the loop body runs only for a positive indent, which `Int.toNat`
reproduces). -/
def buffer.newline (b : buffer) : buffer :=
  (List.replicate b.indent.toNat (⟨' ', 1, ""⟩ : cell)).foldl buffer.appendCell b.appendLine

/-- writer.go `buffer.write`: appends a single rune, inserting a soft
newline when the cell would overflow the width and after a cell that
exactly fills it; line feeds start a new line and unprintable runes are
dropped silently. -/
def buffer.write (b : buffer) (r : Char) (attr : String) : buffer :=
  if r = '\n' then b.newline
  else if ¬ isPrint r then b
  else
    let wd := wcwidth r
    let c : cell := ⟨r, wd, attr⟩
    if b.col + (wd : Int) > b.width then (b.newline).appendCell c
    else if b.col + (wd : Int) = b.width then (b.appendCell c).newline
    else b.appendCell c

/-- writer.go `buffer.writes`: write each rune of a string. -/
def buffer.writes (b : buffer) (s : String) (attr : String) : buffer :=
  s.toList.foldl (fun b r => b.write r attr) b

/-- writer.go `buffer.writePadding`: `w` spaces at the given attribute
(`strings.Repeat` is only ever called with a positive count). -/
def buffer.writePadding (b : buffer) (w : Int) (attr : String) : buffer :=
  b.writes (String.mk (List.replicate w.toNat ' ')) attr

/-- writer.go `buffer.cursor`. -/
def buffer.cursor (b : buffer) : pos :=
  ⟨(b.cells.length : Int) - 1, b.col⟩

/-- Summed cell widths of one line. -/
def lineWidth (ln : List cell) : Nat :=
  (ln.map cell.width).sum

/-- The cells `newline` appends on a fresh line for a given indent. -/
def indentCells (k : Int) : List cell :=
  List.replicate k.toNat (⟨' ', 1, ""⟩ : cell)

/-- A sequence of write-rune calls, each with its attribute. -/
def writeAll (b : buffer) (l : List (Char × String)) : buffer :=
  l.foldl (fun b p => b.write p.1 p.2) b

/-! ## writer.go: deltaPos and commitBuffer -/

/-- writer.go `deltaPos`: the escape sequence moving the cursor from `p`
to `q` (up/down component then left/right component, nonzero deltas
only). -/
def deltaPos (p q : pos) : String :=
  (if p.line < q.line then "\x1b[" ++ toString (q.line - p.line) ++ "B"
   else if p.line > q.line then "\x1b[" ++ toString (p.line - q.line) ++ "A"
   else "")
  ++ (if p.col < q.col then "\x1b[" ++ toString (q.col - p.col) ++ "C"
      else if p.col > q.col then "\x1b[" ++ toString (p.col - q.col) ++ "D"
      else "")

/-- One cell of commitBuffer's inner loop, on the accumulated output and
the currently set attribute: cells of positive width whose attribute
differs from the current one are preceded by an SGR reset and their own
attribute; then the cell's code point is emitted. -/
def renderCellStep (acc : String × String) (c : cell) : String × String :=
  let acc1 :=
    if 0 < c.width ∧ c.attr ≠ acc.2
    then (acc.1 ++ "\x1b[m\x1b[" ++ c.attr ++ "m", c.attr)
    else acc
  (acc1.1 ++ String.singleton c.rn, acc1.2)

/-- commitBuffer's loop over one line of cells. -/
def renderLine (acc : String × String) (ln : List cell) : String × String :=
  ln.foldl renderCellStep acc

/-- commitBuffer's loop over all lines: every line but the first is
preceded by a newline. -/
def renderBodyAux : Bool → String × String → List (List cell) → String × String
  | _, acc, [] => acc
  | first, acc, ln :: ls =>
    let acc1 := if first then acc else (acc.1 ++ "\n", acc.2)
    renderBodyAux false (renderLine acc1 ln) ls

/-- The byte string writer.go `commitBuffer` accumulates for a new buffer,
given the line of the previously committed buffer's dot: cursor-up over
the old region, carriage return and erase-to-end, the styled cells, a
final SGR reset if an attribute is in force, and the cursor motion from
the buffer's trailing cursor to its dot. -/
def commitOutput (prevDotLine : Int) (buf : buffer) : String :=
  let s0 := if prevDotLine > 0 then "\x1b[" ++ toString prevDotLine ++ "A" else ""
  let s1 := s0 ++ "\r\x1b[J"
  let acc := renderBodyAux true (s1, "") buf.cells
  let s2 := if acc.2 ≠ "" then acc.1 ++ "\x1b[m" else acc.1
  s2 ++ deltaPos buf.cursor buf.dot

/-- An opaque error value for the write syscall. -/
structure IOErr where
  code : Nat
deriving DecidableEq, Repr

/-- writer.go `writer`: the writer retains only the previously committed
buffer (the terminal file itself is external). -/
structure writerState where
  oldBuf : buffer
deriving DecidableEq, Repr

/-- writer.go `commitBuffer`: build the byte string, hand it to the single
write call (whose outcome is the external `writeErr` input), and update
the previous buffer only on success. Returns the bytes that were passed
to write, the new writer state, and the returned error. -/
def commitBuffer (w : writerState) (buf : buffer) (writeErr : Option IOErr) :
    String × writerState × Option IOErr :=
  let out := commitOutput w.oldBuf.dot.line buf
  match writeErr with
  | some e => (out, w, some e)
  | none => (out, ⟨buf⟩, none)

/-! ## writer.go: the refresh composer's line buffer

The editor-state types below (token, completion, candidate, part) are
consumed by refresh but declared in source files of this repository that
are not under src/. Modelled from the spec: tokens carry a value string
and a syntactic type tag; a completion carries candidates, the current
candidate index (-1 for none), the byte range start/end it replaces and a
type tag; candidates carry parts, each a text with a `completed` flag.
The attribute constants (attrForPrompt and friends) are opaque SGR
strings, bundled here as an explicit parameter record. -/

abbrev TokenType := Nat

structure token where
  typ : TokenType
  val : String
deriving DecidableEq, Repr

structure part where
  text : String
  completed : Bool
deriving DecidableEq, Repr

structure candidate where
  text : String
  parts : List part
deriving DecidableEq, Repr

structure completion where
  candidates : List candidate
  current : Int
  start : Nat
  stop : Nat           -- the Go field is named `end`
  typ : TokenType
deriving DecidableEq, Repr

structure editorState where
  prompt : String
  rprompt : String
  tokens : List token
  dot : Nat            -- byte offset of the edit cursor
  completion : Option completion
deriving DecidableEq, Repr

structure attrs where
  forPrompt : String
  forRprompt : String
  forCompleted : String
  forType : TokenType → String

/-- Go `utf8.RuneLen` on a valid rune. -/
def utf8Len (r : Char) : Nat :=
  if r.toNat < 0x80 then 1
  else if r.toNat < 0x800 then 2
  else if r.toNat < 0x10000 then 3
  else 4

/-- refresh's candidate emission (writer.go lines 221 to 227): write each
part of the current candidate, at the completion type's attribute, with
the completed attribute appended for parts marked completed. Go indexes
`comp.candidates[comp.current]` directly; an out-of-range index would
panic there and leaves the buffer unchanged here. -/
def emitParts (A : attrs) (c : completion) (b : buffer) : buffer :=
  match (c.candidates.drop c.current.toNat).head? with
  | none => b
  | some cand =>
    cand.parts.foldl (fun b p =>
      let attr := A.forType c.typ
      let attr1 := if p.completed then attr ++ A.forCompleted else attr
      b.writes p.text attr1) b

/-- The loop state of refresh's token loop: the buffer, the byte counter
`i`, and the suppression flag. -/
structure lineSt where
  b : buffer
  i : Nat
  sup : Bool
deriving Repr

/-- One iteration of refresh's token loop (writer.go lines 210 to 233) for
one rune of a token with type tag `ty`: suppressed runes inside the
completed range are silenced, others are written at the token type's
attribute; the byte counter advances by the rune's UTF-8 length; when it
lands exactly on `comp.start` with a candidate selected the candidate's
parts are emitted and suppression is switched on; when it lands on the
edit cursor the dot is captured. Go's `suppress && i < comp.end` only
evaluates `comp.end` when `suppress` is true, and suppression can only
have been switched on with a completion present. -/
def refreshRune (A : attrs) (bs : editorState) (ty : TokenType) (st : lineSt) (r : Char) :
    lineSt :=
  let skip := st.sup && (match bs.completion with
    | some c => decide (st.i < c.stop)
    | none => false)
  let b1 := if skip then st.b else st.b.write r (A.forType ty)
  let i1 := st.i + utf8Len r
  let bsup :=
    match bs.completion with
    | some c =>
      if c.current ≠ -1 ∧ i1 = c.start then (emitParts A c b1, true) else (b1, st.sup)
    | none => (b1, st.sup)
  let b2 := if bs.dot = i1 then { bsup.1 with dot := bsup.1.cursor } else bsup.1
  ⟨b2, i1, bsup.2⟩

/-- The part of refresh before the token loop (writer.go lines 192 to
204): prompt at the prompt attribute, the indent rule (continuation lines
align under the first input column when the prompt takes less than half
the width), and the dot capture at byte offset 0. -/
def refreshPre (width : Int) (A : attrs) (bs : editorState) : lineSt :=
  let b := newBuffer width
  let b := b.writes bs.prompt A.forPrompt
  let b := if b.col * 2 < b.width then { b with indent := b.col } else b
  let st : lineSt := ⟨b, 0, false⟩
  if bs.dot = 0 then { st with b := { st.b with dot := st.b.cursor } } else st

/-- The part of refresh after the token loop (writer.go lines 236 to
241): the right prompt, emitted when at least one column of padding fits
before the last column. -/
def refreshPost (A : attrs) (bs : editorState) (b : buffer) : buffer :=
  let padding := b.width - 1 - b.col - wcwidths bs.rprompt
  if padding ≥ 1 then (b.writePadding padding "").writes bs.rprompt A.forRprompt
  else b

/-- The line sub-buffer that refresh builds (writer.go lines 192 to 241):
the pre-loop part, the token loop, and the right prompt part. The mode,
tips and completion sub-buffers and the final commit are outside the
claims settled here. -/
def refreshLine (width : Int) (A : attrs) (bs : editorState) : buffer :=
  refreshPost A bs
    ((bs.tokens.foldl (fun st tk => tk.val.toList.foldl (refreshRune A bs tk.typ) st)
      (refreshPre width A bs)).b)

/-! ## Auxiliary definitions for the statements below -/

/-- Boolean list-prefix test (used to search a byte string for a
control-sequence occurrence). -/
def prefixOf : List Char → List Char → Bool
  | [], _ => true
  | _ :: _, [] => false
  | a :: as, b :: bs => a == b && prefixOf as bs

/-- Whether `needle` occurs contiguously anywhere in the second list. -/
def containsSeq (needle : List Char) : List Char → Bool
  | [] => needle.isEmpty
  | h :: t => prefixOf needle (h :: t) || containsSeq needle t

/-- The invariant carried through write-rune sequences for a buffer of
width `W`: fixed width, zero indent, a nonempty line list whose running
column is the summed width of the last line, and no line wider than
`W`. -/
def okBuf (W : Int) (b : buffer) : Prop :=
  b.width = W ∧ b.indent = 0 ∧
  ∃ X ln, b.cells = X ++ [ln] ∧ b.col = (lineWidth ln : Int) ∧
    ∀ l ∈ b.cells, (lineWidth l : Int) ≤ W

/-- A concrete buffer of width 5 with four columns already used on its
only line and indent 2. -/
def bW5 : buffer :=
  ⟨5, 4, 2, [[⟨'w', 1, "p"⟩, ⟨'x', 1, "p"⟩, ⟨'y', 1, "p"⟩, ⟨'z', 1, "p"⟩]], ⟨0, 0⟩⟩

/-- A buffer holding one width-0 cell with a nonempty attribute. -/
def bufC6 : buffer := ⟨10, 0, 0, [[⟨'x', 0, "1"⟩]], ⟨0, 0⟩⟩

/-- A concrete attribute record for the refresh statements. -/
def A0 : attrs := ⟨"", "", "4", fun _ => ""⟩

/-- A completion anchored at byte offset 0 with one selected candidate. -/
def compC9 : completion := ⟨[⟨"xy", [⟨"xy", false⟩]⟩], 0, 0, 1, 0⟩

/-- An editor state whose active completion replaces the range [0, 1). -/
def bsC9 : editorState := ⟨"", "", [⟨0, "ab"⟩], 0, some compC9⟩

/-- A loop state for the refresh step statement: empty fresh buffer, byte
counter 0, suppression off. -/
def stC9 : lineSt := ⟨newBuffer 9, 0, false⟩

/-- An editor state whose completion is anchored at byte offset 1. -/
def bsC9b : editorState := ⟨"", "", [⟨0, "ab"⟩], 5, some ⟨[⟨"xy", [⟨"xy", false⟩]⟩], 0, 1, 2, 0⟩⟩

/-! ## Shared lemmas about the cell buffer -/

lemma updateLast_append (X : List (List cell)) (ln : List cell) (c : cell) :
    updateLast (X ++ [ln]) c = X ++ [ln ++ [c]] := by
  induction X with
  | nil => rfl
  | cons x xs ih =>
    cases xs with
    | nil => rfl
    | cons y ys =>
      show updateLast (x :: ((y :: ys) ++ [ln])) c = _
      simp only [List.cons_append, updateLast]
      simpa using ih

lemma updateLast_length (l : List (List cell)) (c : cell) :
    (updateLast l c).length = l.length := by
  induction l with
  | nil => rfl
  | cons x xs ih =>
    cases xs with
    | nil => rfl
    | cons y ys => simpa [updateLast] using ih

lemma lineWidth_append (l1 l2 : List cell) :
    lineWidth (l1 ++ l2) = lineWidth l1 + lineWidth l2 := by
  simp [lineWidth]

lemma lineWidth_replicate_space (n : Nat) :
    lineWidth (List.replicate n (⟨' ', 1, ""⟩ : cell)) = n := by
  induction n with
  | zero => rfl
  | succ m ih =>
    simp [List.replicate_succ, lineWidth] at ih ⊢
    omega

lemma foldl_appendCell (cs : List cell) (X : List (List cell)) :
    ∀ (ln : List cell) (w c i : Int) (d : pos),
    cs.foldl buffer.appendCell ⟨w, c, i, X ++ [ln], d⟩ =
      ⟨w, c + (lineWidth cs : Int), i, X ++ [ln ++ cs], d⟩ := by
  induction cs with
  | nil => intro ln w c i d; simp [lineWidth]
  | cons a as ih =>
    intro ln w c i d
    have h1 : buffer.appendCell ⟨w, c, i, X ++ [ln], d⟩ a =
        ⟨w, c + (a.width : Int), i, X ++ [ln ++ [a]], d⟩ := by
      simp [buffer.appendCell, updateLast_append]
    have hw : lineWidth (a :: as) = a.width + lineWidth as := by
      simpa using lineWidth_append [a] as
    simp only [List.foldl_cons, h1, ih (ln ++ [a]) w (c + (a.width : Int)) i d]
    rw [buffer.mk.injEq]
    refine ⟨rfl, ?_, rfl, ?_, rfl⟩
    · rw [hw]; push_cast; ring
    · simp

lemma newline_eq (b : buffer) :
    b.newline = ⟨b.width, (b.indent.toNat : Int), b.indent,
      b.cells ++ [indentCells b.indent], b.dot⟩ := by
  show (List.replicate b.indent.toNat (⟨' ', 1, ""⟩ : cell)).foldl buffer.appendCell
      ⟨b.width, 0, b.indent, b.cells ++ [[]], b.dot⟩ = _
  rw [foldl_appendCell]
  simp [lineWidth_replicate_space, indentCells]

lemma wcwidth_le_two (r : Char) : wcwidth r ≤ 2 := by
  unfold wcwidth
  split
  · omega
  · split <;> omega

lemma write_branch_newline (b : buffer) (a : String) :
    b.write '\n' a = b.newline := by
  simp [buffer.write]

lemma write_branch_drop (b : buffer) (r : Char) (a : String)
    (hn : r ≠ '\n') (hp : isPrint r = false) :
    b.write r a = b := by
  simp [buffer.write, hn, hp]

lemma write_branch_over (b : buffer) (r : Char) (a : String)
    (hn : r ≠ '\n') (hp : isPrint r = true)
    (h : b.col + (wcwidth r : Int) > b.width) :
    b.write r a = (b.newline).appendCell ⟨r, wcwidth r, a⟩ := by
  simp [buffer.write, hn, hp, h]

lemma write_branch_exact (b : buffer) (r : Char) (a : String)
    (hn : r ≠ '\n') (hp : isPrint r = true)
    (_h1 : ¬ b.col + (wcwidth r : Int) > b.width)
    (h2 : b.col + (wcwidth r : Int) = b.width) :
    b.write r a = (b.appendCell ⟨r, wcwidth r, a⟩).newline := by
  simp [buffer.write, hn, hp, _h1, h2]

lemma write_branch_plain (b : buffer) (r : Char) (a : String)
    (hn : r ≠ '\n') (hp : isPrint r = true)
    (h1 : ¬ b.col + (wcwidth r : Int) > b.width)
    (h2 : ¬ b.col + (wcwidth r : Int) = b.width) :
    b.write r a = b.appendCell ⟨r, wcwidth r, a⟩ := by
  simp [buffer.write, hn, hp, h1, h2]

lemma appendCell_eq (b : buffer) (c : cell) (X : List (List cell)) (ln : List cell)
    (h : b.cells = X ++ [ln]) :
    b.appendCell c = ⟨b.width, b.col + (c.width : Int), b.indent, X ++ [ln ++ [c]], b.dot⟩ := by
  simp [buffer.appendCell, h, updateLast_append]

lemma indentCells_zero : indentCells 0 = [] := by
  simp [indentCells]

lemma okBuf_write (W : Int) (hW : 2 ≤ W) (b : buffer) (h : okBuf W b)
    (r : Char) (a : String) : okBuf W (b.write r a) := by
  obtain ⟨hwid, hind, X, ln, hc, hcol, hall⟩ := h
  have hwd2 : wcwidth r ≤ 2 := wcwidth_le_two r
  by_cases hn : r = '\n'
  · subst hn
    rw [write_branch_newline, newline_eq, hind, indentCells_zero]
    refine ⟨hwid, rfl, b.cells, [], rfl, by simp [lineWidth], ?_⟩
    intro l hl
    rcases List.mem_append.1 hl with hl | hl
    · exact hall l hl
    · simp only [List.mem_singleton] at hl
      subst hl
      simp only [lineWidth, List.map_nil, List.sum_nil, Nat.cast_zero]
      omega
  · by_cases hp : isPrint r
    · by_cases hover : b.col + (wcwidth r : Int) > b.width
      · rw [write_branch_over b r a hn hp hover, newline_eq, hind, indentCells_zero]
        rw [appendCell_eq _ _ b.cells [] rfl]
        refine ⟨hwid, rfl, b.cells, [⟨r, wcwidth r, a⟩], rfl, ?_, ?_⟩
        · simp [lineWidth]
        · intro l hl
          rcases List.mem_append.1 hl with hl | hl
          · exact hall l hl
          · simp only [List.mem_singleton] at hl
            subst hl
            have e1 : lineWidth ([] ++ [(⟨r, wcwidth r, a⟩ : cell)]) = wcwidth r := by
              simp [lineWidth]
            rw [e1]
            omega
      · by_cases hex : b.col + (wcwidth r : Int) = b.width
        · rw [write_branch_exact b r a hn hp hover hex, appendCell_eq _ _ X ln hc,
            newline_eq, hind, indentCells_zero]
          refine ⟨hwid, rfl, X ++ [ln ++ [⟨r, wcwidth r, a⟩]], [], by simp,
            by simp [lineWidth], ?_⟩
          intro l hl
          rcases List.mem_append.1 hl with hl | hl
          · rcases List.mem_append.1 hl with hl | hl
            · exact hall l (hc ▸ List.mem_append.2 (Or.inl hl))
            · simp only [List.mem_singleton] at hl
              subst hl
              have e1 : lineWidth (ln ++ [(⟨r, wcwidth r, a⟩ : cell)]) =
                  lineWidth ln + wcwidth r := by
                rw [lineWidth_append]; simp [lineWidth]
              rw [e1]
              push_cast
              omega
          · simp only [List.mem_singleton] at hl
            subst hl
            simp only [lineWidth, List.map_nil, List.sum_nil, Nat.cast_zero]
            omega
        · rw [write_branch_plain b r a hn hp hover hex, appendCell_eq _ _ X ln hc]
          refine ⟨hwid, hind, X, ln ++ [⟨r, wcwidth r, a⟩], rfl, ?_, ?_⟩
          · rw [lineWidth_append, hcol]
            simp [lineWidth]
          · intro l hl
            rcases List.mem_append.1 hl with hl | hl
            · exact hall l (hc ▸ List.mem_append.2 (Or.inl hl))
            · simp only [List.mem_singleton] at hl
              subst hl
              have e1 : lineWidth (ln ++ [(⟨r, wcwidth r, a⟩ : cell)]) =
                  lineWidth ln + wcwidth r := by
                rw [lineWidth_append]; simp [lineWidth]
              rw [e1]
              push_cast
              omega
    · rw [write_branch_drop b r a hn (by simpa using hp)]
      exact ⟨hwid, hind, X, ln, hc, hcol, hall⟩

lemma okBuf_writeAll (W : Int) (hW : 2 ≤ W) (l : List (Char × String)) :
    ∀ b : buffer, okBuf W b → okBuf W (writeAll b l) := by
  induction l with
  | nil => intro b h; exact h
  | cons p t ih =>
    intro b h
    exact ih (b.write p.1 p.2) (okBuf_write W hW b h p.1 p.2)

lemma okBuf_newBuffer (W : Int) (hW : 2 ≤ W) : okBuf W (newBuffer W) := by
  refine ⟨rfl, rfl, [], [], rfl, by simp [newBuffer, lineWidth], ?_⟩
  intro l hl
  simp only [newBuffer, List.mem_singleton] at hl
  subst hl
  simp only [lineWidth, List.map_nil, List.sum_nil, Nat.cast_zero]
  omega

/-! ## Shared lemmas about commitBuffer's cell rendering -/

lemma renderLine_append (acc : String × String) (cs : List cell) (c : cell) :
    renderLine acc (cs ++ [c]) = renderCellStep (renderLine acc cs) c := by
  simp [renderLine]

/-! ## Shared lemmas about the refresh loop -/

lemma utf8Len_pos (r : Char) : 1 ≤ utf8Len r := by
  unfold utf8Len
  split
  · omega
  · split
    · omega
    · split <;> omega

lemma refreshRune_nocomp (A : attrs) (bs : editorState) (c : completion)
    (hc : bs.completion = some c) (h0 : c.start = 0) (ty : TokenType)
    (st : lineSt) (r : Char) (hs : st.sup = false) :
    refreshRune A bs ty st r =
      refreshRune A { bs with completion := none } ty st r ∧
    (refreshRune A bs ty st r).sup = false := by
  have hne : st.i + utf8Len r ≠ c.start := by
    have := utf8Len_pos r
    omega
  simp only [refreshRune, hc, hs, Bool.false_and, if_neg (by simp : ¬ (False : Prop))]
  simp [hne, hs]

lemma refreshRune_foldl_nocomp (A : attrs) (bs : editorState) (c : completion)
    (hc : bs.completion = some c) (h0 : c.start = 0) (ty : TokenType)
    (l : List Char) :
    ∀ st : lineSt, st.sup = false →
      l.foldl (refreshRune A bs ty) st =
        l.foldl (refreshRune A { bs with completion := none } ty) st ∧
      (l.foldl (refreshRune A bs ty) st).sup = false := by
  induction l with
  | nil => intro st hs; exact ⟨rfl, hs⟩
  | cons r t ih =>
    intro st hs
    obtain ⟨he, hsup⟩ := refreshRune_nocomp A bs c hc h0 ty st r hs
    obtain ⟨ihe, ihsup⟩ := ih (refreshRune A bs ty st r) hsup
    constructor
    · simp only [List.foldl_cons]
      rw [← he, ihe]
    · simpa using ihsup

lemma refreshTokens_nocomp (A : attrs) (bs : editorState) (c : completion)
    (hc : bs.completion = some c) (h0 : c.start = 0) (ts : List token) :
    ∀ st : lineSt, st.sup = false →
      ts.foldl (fun st tk => tk.val.toList.foldl (refreshRune A bs tk.typ) st) st =
        ts.foldl (fun st tk =>
          tk.val.toList.foldl (refreshRune A { bs with completion := none } tk.typ) st) st ∧
      (ts.foldl (fun st tk => tk.val.toList.foldl (refreshRune A bs tk.typ) st) st).sup =
        false := by
  induction ts with
  | nil => intro st hs; exact ⟨rfl, hs⟩
  | cons tk t ih =>
    intro st hs
    obtain ⟨he, hsup⟩ := refreshRune_foldl_nocomp A bs c hc h0 tk.typ tk.val.toList st hs
    obtain ⟨ihe, ihsup⟩ := ih (tk.val.toList.foldl (refreshRune A bs tk.typ) st) hsup
    constructor
    · simp only [List.foldl_cons]
      rw [← he, ihe]
    · simpa using ihsup

/-! ## Shared lemmas for the error sentinel -/

lemma xtermModify_shape (k : Key) (m : Int) :
    (xtermModify k m).2 = none ∨ (xtermModify k m).1 = ZeroKey := by
  unfold xtermModify
  split_ifs <;> simp

lemma parseCSI_shape (nums : List Int) (last : Int) :
    (parseCSI nums last).2 = none ∨ (parseCSI nums last).1 = ZeroKey := by
  unfold parseCSI
  repeat' split
  all_goals
    first
    | exact Or.inl rfl
    | exact Or.inr rfl
    | exact xtermModify_shape _ _

lemma csiLoop_shape (evs : List REv) :
    ∀ nums : List Int, (csiLoop evs nums).2 = none ∨ (csiLoop evs nums).1 = ZeroKey := by
  induction evs with
  | nil => intro nums; exact Or.inr rfl
  | cons e t ih =>
    intro nums
    cases e with
    | tout => exact Or.inl rfl
    | ioe => exact Or.inr rfl
    | rn r =>
      unfold csiLoop
      split
      · exact parseCSI_shape nums r
      · exact ih _

lemma escBranch_shape (r : Int) (rest : List REv) :
    (escBranch r rest).2 = none ∨ (escBranch r rest).1 = ZeroKey := by
  unfold escBranch
  repeat' split
  all_goals
    first
    | exact Or.inl rfl
    | exact Or.inr rfl
    | exact csiLoop_shape _ _

/-! ## The claims -/

/-- C1: the claim says a CSI sequence with final byte `~`, three numeric
parameters and `nums[0] = 27` whose `nums[2]` is in the modifyOtherKeys
table decodes to the table's key with the xterm modifiers, and in
particular `ESC [ 2 7 ; 2 ; 1 3 ~` to Enter with Shift. The code rejects
every three-parameter list at parseCSI's top length guard, so the
modifyOtherKeys branch is unreachable: every such sequence yields
`BadEscSeq`, and the particular byte sequence yields the zero key and
`BadEscSeq`. -/
theorem c1_modifyOtherKeys_dead :
    (∀ a b c : Int, parseCSI [a, b, c] 126 = (ZeroKey, some RdErr.badEscSeq)) ∧
    readKey ([27, 91, 50, 55, 59, 50, 59, 49, 51, 126].map REv.rn) (-1) =
      ⟨ZeroKey, some RdErr.badEscSeq, -1⟩ := by
  constructor
  · intro a b c
    simp [parseCSI]
  · decide

/-- C2: the claim says a CSI sequence with final byte `~` and exactly one
parameter in the keypad table decodes to the table's key unmodified. The
code rejects every one-parameter list at parseCSI's top length guard, so
`ESC [ 1 ~` yields `BadEscSeq` instead of Home; the two-parameter half of
the claim does hold, e.g. `ESC [ 5 ; 2 ~` decodes to PageUp with
Shift. -/
theorem c2_keypad_one_param_dead :
    (∀ n : Int, parseCSI [n] 126 = (ZeroKey, some RdErr.badEscSeq)) ∧
    readKey ([27, 91, 49, 126].map REv.rn) (-1) = ⟨ZeroKey, some RdErr.badEscSeq, -1⟩ ∧
    readKey ([27, 91, 53, 59, 50, 126].map REv.rn) (-1) =
      ⟨⟨PageUp, Shift⟩, none, -1⟩ := by
  refine ⟨?_, by decide, by decide⟩
  intro n
  simp [parseCSI]

/-- C3 counterexample: on a buffer of width 1, writing the printable
width-2 rune U+3042 produces a line of summed width 2 > 1, so the
no-overflow claim fails for every width as stated. -/
theorem c3_overflow_counterexample :
    ((writeAll (newBuffer 1) [('あ', "")]).cells.all
      (fun ln => decide ((lineWidth ln : Int) ≤ 1))) = false := by
  decide

/-- C3 amended: after any sequence of write-rune calls to a fresh cell
buffer of width W ≥ 2 (so that every cell, of width at most 2, fits on a
line by itself), no line of the buffer has summed cell widths greater
than W. -/
theorem c3_no_overflow_amended (W : Int) (hW : 2 ≤ W) (l : List (Char × String)) :
    ∀ ln ∈ (writeAll (newBuffer W) l).cells, (lineWidth ln : Int) ≤ W := by
  obtain ⟨-, -, X, lst, -, -, hall⟩ :=
    okBuf_writeAll W hW l (newBuffer W) (okBuf_newBuffer W hW)
  exact hall

theorem c3_no_overflow_witness :
    (2 : Int) ≤ 3 ∧
    ∀ ln ∈ (writeAll (newBuffer 3) [('a', ""), ('あ', "x"), ('b', "")]).cells,
      (lineWidth ln : Int) ≤ 3 :=
  ⟨by decide, c3_no_overflow_amended 3 (by decide) [('a', ""), ('あ', "x"), ('b', "")]⟩

/-- C4: a printable cell of width w written at column c on a buffer of
width W is placed on a new line, preceded by a soft newline and the
indent padding, when c + w > W, and the line count grows by one; when
c + w = W it is appended to the current line and a soft newline
immediately follows, so the insertion cursor lands on a fresh line. In
particular a width-2 cell at column W - 1 begins a new line and a width-1
cell at column W - 1 fills the line and forces a soft newline. -/
theorem c4_wrap_boundary (b : buffer) (r : Char) (a : String)
    (hn : r ≠ '\n') (hp : isPrint r = true) :
    (b.col + (wcwidth r : Int) > b.width →
      (b.write r a).cells = b.cells ++ [indentCells b.indent ++ [⟨r, wcwidth r, a⟩]] ∧
      (b.write r a).cells.length = b.cells.length + 1)
  ∧ (b.col + (wcwidth r : Int) = b.width →
      (b.write r a).cells = updateLast b.cells ⟨r, wcwidth r, a⟩ ++ [indentCells b.indent] ∧
      (b.write r a).cells.length = b.cells.length + 1)
  ∧ (b.col = b.width - 1 → wcwidth r = 2 →
      (b.write r a).cells = b.cells ++ [indentCells b.indent ++ [⟨r, 2, a⟩]])
  ∧ (b.col = b.width - 1 → wcwidth r = 1 →
      (b.write r a).cells = updateLast b.cells ⟨r, 1, a⟩ ++ [indentCells b.indent]) := by
  have hover : ∀ h : b.col + (wcwidth r : Int) > b.width,
      (b.write r a).cells = b.cells ++ [indentCells b.indent ++ [⟨r, wcwidth r, a⟩]] := by
    intro h
    rw [write_branch_over b r a hn hp h, newline_eq,
      appendCell_eq _ _ b.cells (indentCells b.indent) rfl]
  have hexact : ∀ h : b.col + (wcwidth r : Int) = b.width,
      (b.write r a).cells = updateLast b.cells ⟨r, wcwidth r, a⟩ ++ [indentCells b.indent] := by
    intro h
    rw [write_branch_exact b r a hn hp (by omega) h, newline_eq]
    rfl
  refine ⟨fun h => ⟨hover h, ?_⟩, fun h => ⟨hexact h, ?_⟩, fun hc hw => ?_, fun hc hw => ?_⟩
  · rw [hover h]; simp
  · rw [hexact h]; simp [updateLast_length]
  · have h : b.col + (wcwidth r : Int) > b.width := by rw [hc, hw]; push_cast; omega
    rw [hover h, hw]
  · have h : b.col + (wcwidth r : Int) = b.width := by rw [hc, hw]; push_cast; omega
    rw [hexact h, hw]

theorem c4_wrap_boundary_witness :
    ('x' ≠ '\n') ∧ isPrint 'x' = true ∧ bW5.col + (wcwidth 'x' : Int) = bW5.width ∧
    (bW5.write 'x' "q").cells =
      updateLast bW5.cells ⟨'x', wcwidth 'x', "q"⟩ ++ [indentCells bW5.indent] :=
  ⟨by decide, by decide, by decide,
    ((c4_wrap_boundary bW5 'x' "q" (by decide) (by decide)).2.1 (by decide)).1⟩

/-- C5 counterexample: reading the single byte 0x1d yields the key `6`
with Ctrl, not the key `^` with Ctrl as the claim states. -/
theorem c5_ctrl_caret_counterexample :
    (readKey [REv.rn 29] (-1)).key = ⟨54, Ctrl⟩ ∧
    (readKey [REv.rn 29] (-1)).key ≠ ⟨94, Ctrl⟩ := by
  decide

/-- C5 amended: the explicit single-byte mappings are 0x00 to Ctrl-backquote,
0x1d to Ctrl-6 (not Ctrl-caret), 0x1f to Ctrl-slash, and 0x7f to the
unmodified Backspace key. -/
theorem c5_single_byte_amended :
    readKey [REv.rn 0] (-1) = ⟨⟨96, Ctrl⟩, none, -1⟩ ∧
    readKey [REv.rn 29] (-1) = ⟨⟨54, Ctrl⟩, none, -1⟩ ∧
    readKey [REv.rn 31] (-1) = ⟨⟨47, Ctrl⟩, none, -1⟩ ∧
    readKey [REv.rn 127] (-1) = ⟨⟨Backspace, noMod⟩, none, -1⟩ := by
  decide

/-- C6 counterexample: a width-0 cell whose attribute (here `1`) differs
from the currently set empty attribute is emitted without any SGR; the
commit output for a buffer holding only that cell contains no SGR reset
at all, refuting the claim's "regardless of their display width". -/
theorem c6_width0_counterexample :
    commitOutput 0 bufC6 = "\r\x1b[Jx" ∧
    containsSeq "\x1b[m".toList (commitOutput 0 bufC6).toList = false := by
  decide

/-- C6 amended: during commit, a cell of positive width whose attribute
differs from the currently set attribute is emitted as an SGR reset, the
cell's attribute, and then the cell's code point; width-0 cells never get
the attribute prologue. -/
theorem c6_sgr_amended (acc : String × String) (cs : List cell) (c : cell)
    (h1 : 0 < c.width) (h2 : c.attr ≠ (renderLine acc cs).2) :
    renderLine acc (cs ++ [c]) =
      (((renderLine acc cs).1 ++ "\x1b[m\x1b[" ++ c.attr ++ "m") ++ String.singleton c.rn,
        c.attr) := by
  rw [renderLine_append]
  simp [renderCellStep, h1, h2]

theorem c6_sgr_witness :
    (0 < (1 : Nat)) ∧ "1" ≠ (renderLine ("", "") []).2 ∧
    renderLine ("", "") ([] ++ [(⟨'x', 1, "1"⟩ : cell)]) = ("\x1b[m\x1b[1mx", "1") := by
  refine ⟨by decide, by decide, ?_⟩
  rw [c6_sgr_amended ("", "") [] ⟨'x', 1, "1"⟩ (by decide) (by decide)]
  rfl

/-- C7: commit is atomic with respect to the previously committed buffer:
when the single write call fails the error is returned and the writer's
state is unchanged, and only on success is the previous buffer replaced
by the new one. -/
theorem c7_commit_atomic (w : writerState) (buf : buffer) (e : IOErr) :
    ((commitBuffer w buf (some e)).2.1 = w ∧ (commitBuffer w buf (some e)).2.2 = some e)
  ∧ ((commitBuffer w buf none).2.1.oldBuf = buf ∧ (commitBuffer w buf none).2.2 = none) := by
  exact ⟨⟨rfl, rfl⟩, ⟨rfl, rfl⟩⟩

/-- C8: for every continuation of the input stream after an ESC byte and
every starting timeout value, readKey returns with the timed source's
timeout field restored to the blocking value -1 — on every exit path of
the ESC branch (timeout returns, CSI and G3 parsing, BadEscSeq, I/O
errors), as the deferred restore guarantees. -/
theorem c8_timeout_restored (rest : List REv) (t0 : Int) :
    (readKey (REv.rn 27 :: rest) t0).timeoutAfter = -1 := rfl

/-- C9 counterexample: with an active completion anchored at byte offset
0 (comp.start = 0) and a selected candidate, refresh never emits the
candidate's parts and never suppresses the original text: the check
`i == comp.start` runs only after `i` has been advanced past 0. The line
buffer for tokens `ab` with candidate `xy` holds exactly `a` and `b`. -/
theorem c9_start_zero_counterexample :
    (refreshLine 3 A0 bsC9).cells =
      [[⟨'a', 1, ""⟩, ⟨'b', 1, ""⟩]] ∧
    ((refreshLine 3 A0 bsC9).cells.all (fun ln => ln.all (fun c => c.rn != 'x'))) = true := by
  decide

/-- C9 amended: when the byte counter first reaches comp.start at the end
of a rune (so comp.start ≥ 1) with a candidate selected, the candidate's
parts are emitted — each at the completion type's attribute, with the
completed attribute appended for parts marked completed, via emitParts —
and suppression is switched on; when comp.start = 0 the check never
fires, and refresh behaves exactly as if no completion were present. -/
theorem c9_completion_amended :
    (∀ (A : attrs) (bs : editorState) (c : completion) (ty : TokenType)
      (st : lineSt) (r : Char),
      bs.completion = some c → st.sup = false → c.current ≠ -1 →
      st.i + utf8Len r = c.start → bs.dot ≠ st.i + utf8Len r →
      refreshRune A bs ty st r =
        ⟨emitParts A c (st.b.write r (A.forType ty)), st.i + utf8Len r, true⟩)
  ∧ (∀ (width : Int) (A : attrs) (bs : editorState) (c : completion),
      bs.completion = some c → c.start = 0 →
      refreshLine width A bs = refreshLine width A { bs with completion := none }) := by
  constructor
  · intro A bs c ty st r hc hs hcur hi hdot
    simp only [refreshRune, hc, hs, Bool.false_and]
    rw [hi] at hdot
    simp [hi, hcur, hdot]
  · intro width A bs c hc h0
    unfold refreshLine
    have hsup : (refreshPre width A bs).sup = false := by
      unfold refreshPre
      split <;> rfl
    have he := (refreshTokens_nocomp A bs c hc h0 bs.tokens (refreshPre width A bs) hsup).1
    rw [he]
    rfl

theorem c9_completion_witness :
    refreshLine 3 A0 bsC9 = refreshLine 3 A0 { bsC9 with completion := none } :=
  c9_completion_amended.2 3 A0 bsC9 compC9 rfl rfl

/-- C10: whenever readKey returns a non-nil error — I/O error, decode
error, timeout surfaced as an error, or BadEscSeq — the key it returns is
ZeroKey; a key other than ZeroKey is only returned with a nil error. -/
theorem c10_error_zerokey (evs : List REv) (t0 : Int)
    (h : ((readKey evs t0).err).isSome = true) : (readKey evs t0).key = ZeroKey := by
  cases evs with
  | nil => rfl
  | cons e rest =>
    cases e with
    | tout => rfl
    | ioe => rfl
    | rn r =>
      revert h
      simp only [readKey]
      split_ifs with h0 h29 h31 h127 h27 hctl
      · intro h; simp at h
      · intro h; simp at h
      · intro h; simp at h
      · intro h; simp at h
      · intro h
        rcases escBranch_shape r rest with hsh | hsh
        · simp [hsh] at h
        · simpa using hsh
      · intro h; simp at h
      · intro h; simp at h

theorem c10_error_zerokey_witness :
    ((readKey [REv.rn 27, REv.rn 79, REv.rn 90] (-1)).err).isSome = true ∧
    (readKey [REv.rn 27, REv.rn 79, REv.rn 90] (-1)).key = ZeroKey :=
  ⟨by decide, c10_error_zerokey [REv.rn 27, REv.rn 79, REv.rn 90] (-1) (by decide)⟩

end Elvish
